import Mathlib

/-!
Shallow embedding of the metricq-source-bacnet polling core.

Python dictionaries are modelled as insertion-ordered association lists
(`dSet` overwrites in place, appends fresh keys at the end, exactly like
CPython dicts).  Timestamps are integers (metricq nanoseconds); machine
words never overflow in the modelled arithmetic.
-/

/-- Decoded BACnet property values (strings, numbers, booleans). -/
inductive Val where
  | str : String → Val
  | num : Int → Val
  | boolv : Bool → Val
  deriving DecidableEq, Repr

/-- Python truthiness of a decoded value. -/
def pyTruthy : Val → Bool
  | .str s => s ≠ ""
  | .num n => n ≠ 0
  | .boolv b => b

section Dict

variable {κ : Type} [DecidableEq κ] {α : Type}

/-- Dictionary lookup: first matching key wins (association lists built by
`dSet` never hold duplicate keys, matching Python dict semantics). -/
def dLookup : List (κ × α) → κ → Option α
  | [], _ => none
  | (k₀, v₀) :: rest, k => if k = k₀ then some v₀ else dLookup rest k

/-- Python `d[k] = v`: overwrite in place if present, append otherwise. -/
def dSet : List (κ × α) → κ → α → List (κ × α)
  | [], k, v => [(k, v)]
  | (k₀, v₀) :: rest, k, v =>
      if k₀ = k then (k₀, v) :: rest else (k₀, v₀) :: dSet rest k v

/-- Python `d.update(p)`: apply every assignment of `p` in order. -/
def dUpdate (d p : List (κ × α)) : List (κ × α) :=
  p.foldl (fun acc kv => dSet acc kv.1 kv.2) d

/-- Keys of an association list. -/
def dKeys (d : List (κ × α)) : List κ := d.map Prod.fst

end Dict

/-- Left-biased choice on options (`a` if present, else `b`). -/
def optOr {α : Type} : Option α → Option α → Option α
  | some v, _ => some v
  | none, b => b

/-- Per-object property bundle (the values of the Object Cache). -/
abbrev ObjectInfo := List (String × Val)

/-- Cache key: (device address string, object type, object instance). -/
abbrev CacheKey := String × String × Int

/-- Object identifier: (object type, object instance). -/
abbrev ObjId := String × Int

/-- The Object Cache: cache key to property bundle. -/
abbrev Cache := List (CacheKey × ObjectInfo)

/-- Cache merge from `application.py`: if the key is absent a fresh empty
bundle is created, then `cache[key].update(partial)` is applied. -/
def mergeCache (c : Cache) (k : CacheKey) (p : ObjectInfo) : Cache :=
  match dLookup c k with
  | some b => dSet c k (dUpdate b p)
  | none => dSet c k (dUpdate [] p)

/-- Lookup of one property of one cached object. -/
def propLookup (c : Cache) (k : CacheKey) (s : String) : Option Val :=
  match dLookup c k with
  | some b => dLookup b s
  | none => none

/-- Device entry of the bacpypes device-info cache (only the fields the
modelled code reads). -/
structure DeviceEntry where
  deviceIdentifier : Int
  segmentationSupported : String
  deriving DecidableEq, Repr

/-- Result of `_unpack_iocb` on a ReadPropertyMultiple acknowledgement:
object identifier to decoded property bundle. -/
abbrev UnpackedResult := List (ObjId × ObjectInfo)

/-- Fuel-driven core of the `chunks` helper; the fuel is an upper bound
on the length of the remaining list, so the exhausted case is never hit
by `chunks` below. -/
def chunksAux {α : Type} : Nat → List α → Nat → List (List α)
  | _, [], _ => []
  | 0, _ :: _, _ => []
  | fuel + 1, l, n => if n = 0 then [] else l.take n :: chunksAux fuel (l.drop n) n

/-- The `chunks` helper of `application.py`: successive `n`-sized chunks.
The modelled callers always pass a positive `n` (Python would raise on 0). -/
def chunks {α : Type} (l : List α) (n : Nat) : List (List α) :=
  chunksAux l.length l n

/-- True when the cached device entry advertises `noSegmentation`. -/
def isNoSeg (di : Option DeviceEntry) : Bool :=
  match di with
  | some d => d.segmentationSupported = "noSegmentation"
  | none => false

/-- Chunk size used by `request_object_properties`: caller-supplied when
truthy, else 20, reduced to 4 for a device without segmentation support. -/
def objPropChunkSize (cs : Option Nat) (di : Option DeviceEntry) : Nat :=
  match cs with
  | some n => if n = 0 then (if isNoSeg di then 4 else 20) else n
  | none => if isNoSeg di then 4 else 20

/-- Chunk size used by `request_values`: the object-property rule scaled
by `chunk_scale = 3` because only one property is requested per object. -/
def requestValuesChunkSize (cs : Option Nat) (di : Option DeviceEntry) : Nat :=
  match cs with
  | some n => if n = 0 then (if isNoSeg di then 4 * 3 else 20 * 3) else n
  | none => if isNoSeg di then 4 * 3 else 20 * 3

/-- Skip test of `request_device_properties`: true when `skip_when_cached`
is set and the cached bundle already has every requested property. -/
def deviceSkipHit (cache : Cache) (key : CacheKey) (properties : List String)
    (skipWhenCached : Bool) : Bool :=
  skipWhenCached &&
    (match dLookup cache key with
     | some cached => properties.all (fun p => (dLookup cached p).isSome)
     | none => false)

/-- Embedding of `BACnetMetricQReader.request_device_properties`.  The
discovery retry loop is abstracted: `devInfo` is the device-info cache
entry after the who-is retries, and `response` is the unpacked
ReadPropertyMultiple acknowledgement (`none` models a timeout or error
reply, in which case the function logs and returns `None`).  The
`Except` error models the uncaught KeyError raised when a response
arrives without the requested device object. -/
def requestDeviceProperties (cache : Cache) (addrStr : String)
    (propertiesOpt : Option (List String)) (skipWhenCached : Bool)
    (devInfo : Option DeviceEntry) (response : Option UnpackedResult) :
    Except String (Cache × Option ObjectInfo) :=
  let properties := propertiesOpt.getD ["objectName", "description"]
  match devInfo with
  | none => .ok (cache, none)
  | some di =>
    let cacheKey : CacheKey := (addrStr, "device", di.deviceIdentifier)
    if deviceSkipHit cache cacheKey properties skipWhenCached then .ok (cache, none)
    else
      match response with
      | some rv =>
        let devOid : ObjId := ("device", di.deviceIdentifier)
        (match dLookup rv devOid with
         | some bundle => .ok (mergeCache cache cacheKey bundle, some bundle)
         | none => .error "KeyError")
      | none => .ok (cache, none)

/-- Object filter of `request_object_properties` under `skip_when_cached`:
true when every requested property of the object is already cached. -/
def fullyCached (cache : Cache) (addrStr : String) (properties : List String)
    (o : ObjId) : Bool :=
  match dLookup cache (addrStr, o.1, o.2) with
  | some cached => properties.all (fun p => (dLookup cached p).isSome)
  | none => false

/-- Chunk loop of `request_object_properties`: each chunk with a response
has its bundles merged into the cache and collected into `result_values`;
a chunk that fails is logged and skipped without aborting the rest. -/
def runChunks (cache : Cache) (addrStr : String) (cs : List (List ObjId))
    (net : List ObjId → Option UnpackedResult) : Cache × UnpackedResult :=
  cs.foldl
    (fun acc chunk =>
      match net chunk with
      | some rv =>
        (rv.foldl (fun c ov => mergeCache c (addrStr, ov.1.1, ov.1.2) ov.2) acc.1,
         dUpdate acc.2 rv)
      | none => acc)
    (cache, [])

/-- Embedding of `BACnetMetricQReader.request_object_properties`.  The
network is an oracle `net` from a chunk of object identifiers to the
unpacked response for that chunk (`none` models an errored chunk). -/
def requestObjectProperties (cache : Cache) (addrStr : String)
    (objects : List ObjId) (propertiesOpt : Option (List String))
    (skipWhenCached : Bool) (chunkSizeOpt : Option Nat)
    (devInfo : Option DeviceEntry) (net : List ObjId → Option UnpackedResult) :
    Cache × Option UnpackedResult :=
  let properties := propertiesOpt.getD ["objectName", "description", "units"]
  let sz := objPropChunkSize chunkSizeOpt devInfo
  if skipWhenCached then
    let objectToRequest :=
      objects.filter (fun o => !(fullyCached cache addrStr properties o))
    if objectToRequest.isEmpty then (cache, none)
    else
      let r := runChunks cache addrStr (chunks objectToRequest sz) net
      (r.1, some r.2)
  else
    let r := runChunks cache addrStr (chunks objects sz) net
    (r.1, some r.2)

/-- Embedding of `BACnetMetricQReader.request_values`: fire-and-forget, so
the observable behaviour modelled here is the list of chunked
present-value read requests it issues. -/
def requestValues (objects : List ObjId) (chunkSizeOpt : Option Nat)
    (devInfo : Option DeviceEntry) : List (List ObjId) :=
  chunks objects (requestValuesChunkSize chunkSizeOpt devInfo)

/-- Per-object step of the callback: an object is added to the forwarded
mapping under its cached objectName, and skipped when that name is
missing or empty. -/
def iocbStep (cache : Cache) (srcAddr : String)
    (acc : List (Val × ObjectInfo)) (ov : ObjId × ObjectInfo) :
    List (Val × ObjectInfo) :=
  match propLookup cache (srcAddr, ov.1.1, ov.1.2) "objectName" with
  | some nm => if pyTruthy nm then dSet acc nm ov.2 else acc
  | none => acc

/-- Embedding of `BACnetMetricQReader._iocb_callback` for a completed
value poll, returning the tuple handed to the Result Relay Queue or
`none` when the result is dropped. -/
def iocbCallback (cache : Cache) (deviceId : Int) (srcAddr : String)
    (isAck : Bool) (results : UnpackedResult) :
    Option (Val × String × List (Val × ObjectInfo)) :=
  if !isAck then none
  else
    match propLookup cache (srcAddr, "device", deviceId) "objectName" with
    | some dn =>
      if pyTruthy dn then
        some (dn, srcAddr, results.foldl (iocbStep cache srcAddr) [])
      else none
    | none => none

/-- Decimal digit run to a natural number; `none` on an empty run or a
non-digit character. -/
def digitsToNat : List Char → Nat → Option Nat
  | [], acc => some acc
  | c :: cs, acc =>
    if c.isDigit then digitsToNat cs (acc * 10 + (c.toNat - 48)) else none

/-- Integer parse standing in for Python `int(str)`.  Python accepts a
slight superset (surrounding whitespace, a leading plus, underscores);
the modelled configurations and cache keys use plain decimal numerals,
where the two agree, and both reject the malformed inputs used below. -/
def pyInt (s : String) : Option Int :=
  match s.data with
  | [] => none
  | '-' :: ds =>
    match ds with
    | [] => none
    | _ => (digitsToNat ds 0).map (fun n => -(n : Int))
  | ds => digitsToNat ds 0

/-- True when `sep` is an initial segment of `l`. -/
def matchesAt : List Char → List Char → Bool
  | [], _ => true
  | _ :: _, [] => false
  | s :: ss, c :: cs => s = c && matchesAt ss cs

/-- Fuel-driven splitter over characters; `cur` holds the characters of
the current part in reverse.  The fuel is an upper bound on the number
of characters consumed, so `length + 1` always suffices. -/
def splitAux (sep : List Char) : Nat → List Char → List Char → List (List Char)
  | 0, cur, l => [cur.reverse ++ l]
  | _ + 1, cur, [] => [cur.reverse]
  | fuel + 1, cur, c :: rest =>
    if matchesAt sep (c :: rest) then
      cur.reverse :: splitAux sep fuel [] ((c :: rest).drop sep.length)
    else splitAux sep fuel (c :: cur) rest

/-- Python `s.split(sep)` for a non-empty separator. -/
def pySplit (s sep : String) : List String :=
  (splitAux sep.data (s.data.length + 1) [] s.data).map String.mk

/-- Concatenate parts with the separator between them (Python
`sep.join(parts)` restricted to what the model needs). -/
def joinWithSep (sep : List Char) : List (List Char) → List Char
  | [] => []
  | [p] => p
  | p :: rest => p ++ sep ++ joinWithSep sep rest

/-- Python `range(a, b)` as a list. -/
def pyRange (a b : Int) : List Int :=
  (List.range (b - a).toNat).map (fun i => a + i)

/-- Embedding of `source.py` `unpack_range`.  `none` models the
ValueError that `int` or tuple unpacking raises on malformed input. -/
def unpack_range (s : String) : Option (List Int) :=
  (pySplit s ",").foldl
    (fun acc r =>
      match acc with
      | none => none
      | some l =>
        match pySplit r "-" with
        | [a] => (pyInt a).map (fun n => l ++ [n])
        | [a, b] =>
          match pyInt a, pyInt b with
          | some ia, some ib => some (l ++ pyRange ia (ib + 1))
          | _, _ => none
        | _ => none)
    (some [])

/-- Embedding of `source.py` `substitute_all`. -/
def substitute_all (s : String) (subs : List (String × String)) : String :=
  subs.foldl (fun acc kv => acc.replace kv.1 kv.2) s

/-- One object group of the configuration (the fields the duplicate
check reads: object type, instance range string, poll interval). -/
structure GroupCfg where
  objectType : String
  objectInstance : String
  interval : Int
  deriving DecidableEq, Repr

/-- One configured device: address and its object groups. -/
structure DeviceCfg where
  addr : String
  groups : List GroupCfg
  deriving DecidableEq, Repr

/-- The parts of the configuration document consumed by the duplicate
instance-range check. -/
abbrev Config := List DeviceCfg

/-- Observable side effects of `_on_config` on the worker population. -/
inductive WorkerAction where
  | stopWorkers (n : Nat)
  | startWorker (addr : String) (g : GroupCfg)
  deriving DecidableEq, Repr

/-- Group loop of `_on_config` for one device: threads the
`object_instances_by_type` map and the `config_error` flag; a range
string that fails to parse raises (ValueError), modelled as `.error`.
The overlap test and the set union mirror lines 149-158 of `source.py`. -/
def processGroups : List GroupCfg → List (String × List Int) → Bool →
    Except String (List (String × List Int) × Bool)
  | [], acc, err => .ok (acc, err)
  | g :: rest, acc, err =>
    match unpack_range g.objectInstance with
    | none => .error "ValueError"
    | some insts =>
      match dLookup acc g.objectType with
      | some prev =>
        let overlap := insts.any (fun i => prev.contains i)
        processGroups rest
          (dSet acc g.objectType (prev ++ insts.filter (fun i => !prev.contains i)))
          (err || overlap)
      | none => processGroups rest (dSet acc g.objectType insts) err

/-- Device loop of `_on_config`: a fresh `object_instances_by_type` per
device, one process-wide `config_error` flag. -/
def processDevicesFrom (cfg : Config) (err : Bool) : Except String Bool :=
  match cfg with
  | [] => .ok err
  | d :: rest =>
    match processGroups d.groups [] false with
    | .ok r => processDevicesFrom rest (err || r.2)
    | .error m => .error m

/-- All (device address, group) pairs, in configuration order: the
`self._object_groups` list the worker-creation loop iterates. -/
def allGroups (cfg : Config) : List (String × GroupCfg) :=
  (cfg.map (fun d => d.groups.map (fun g => (d.addr, g)))).flatten

/-- Embedding of the `_on_config` reload path.  The handler first
resolves every worker stop future and awaits the old workers (lines
72-78), then validates the new configuration; on a duplicate instance
range it raises ValueError before the worker-creation loop.  The result
is the ordered list of worker-population actions plus either the new
group list or the raised error. -/
def onConfig (oldWorkers : Nat) (cfg : Config) :
    List WorkerAction × Except String (List (String × GroupCfg)) :=
  match processDevicesFrom cfg false with
  | .error m => ([WorkerAction.stopWorkers oldWorkers], .error m)
  | .ok true =>
    ([WorkerAction.stopWorkers oldWorkers], .error "Config has errors! See previous log.")
  | .ok false =>
    let gs := allGroups cfg
    (WorkerAction.stopWorkers oldWorkers :: gs.map (fun g => WorkerAction.startWorker g.1 g.2),
     .ok gs)

/-- Sentinel body of the RUNNING poll loop (`source.py` lines 493-499),
for one declared metric: `last` falls back to `now` when the metric was
never sent; at `now - last ≥ 6·interval` one NaN sample is sent at
`last + 5·interval` and recorded as the new last-send time.  Returns the
emitted sentinel timestamp (if any) and the updated last-send map. -/
def sentinelStep (interval now : Int) (lastSend : List (String × Int))
    (metricId : String) : Option Int × List (String × Int) :=
  let last := (dLookup lastSend metricId).getD now
  if 6 * interval ≤ now - last then
    (some (last + 5 * interval), dSet lastSend metricId (last + 5 * interval))
  else (none, lastSend)

/-- The sentinel body guarded by the per-group `nan_at_timeout` flag. -/
def sentinelCheckEnabled (nanAtTimeout : Bool) (interval now : Int)
    (lastSend : List (String × Int)) (metricId : String) :
    Option Int × List (String × Int) :=
  if nanAtTimeout then sentinelStep interval now lastSend metricId
  else (none, lastSend)

/-- Deadline catch-up loop of the RUNNING poll loop (`source.py` lines
509-518): while the deadline is not in the future, log one warning and
advance it by the interval.  Returns the final deadline and the number
of warnings logged. -/
def catchUp (now interval : Int) (hpos : 0 < interval) (d : Int) : Int × Nat :=
  if h : d ≤ now then
    let r := catchUp now interval hpos (d + interval)
    (r.1, r.2 + 1)
  else (d, 0)
termination_by (now + 1 - d).toNat
decreasing_by
  omega

/-- One pass of the deadline update (`deadline += interval` followed by
the catch-up loop). -/
def nextDeadline (deadline now interval : Int) (hpos : 0 < interval) : Int × Nat :=
  catchUp now interval hpos (deadline + interval)

/-- Python `s.split(sep, maxsplit)`: at most `maxsplit` splits, the
remainder kept unsplit in the last part. -/
def pySplitMax (s sep : String) (maxsplit : Nat) : List String :=
  let parts := (splitAux sep.data (s.data.length + 1) [] s.data)
  if parts.length ≤ maxsplit + 1 then parts.map String.mk
  else (parts.take maxsplit).map String.mk ++
    [String.mk (joinWithSep sep.data (parts.drop maxsplit))]

/-- Embedding of `_cachekey_str_to_tuple`: split on `-*-` with
maxsplit 3, unpack into exactly three names, convert the instance with
`int`.  Any other shape raises ValueError, modelled as `.error`. -/
def cachekey_str_to_tuple (s : String) : Except String CacheKey :=
  match pySplitMax s "-*-" 3 with
  | [a, b, c] =>
    match pyInt c with
    | some n => .ok (a, b, n)
    | none => .error "ValueError: invalid literal for int"
  | _ => .error "ValueError: not enough values to unpack"

/-- State of the disk cache file at startup, as the reader constructor
observes it: the file may be absent or unreadable (both `OSError`),
syntactically invalid JSON, valid JSON that is not an object, or a JSON
object of string keys to bundles. -/
inductive DiskFile where
  | absent
  | unreadable
  | invalidJson
  | jsonNonObject
  | jsonObject (entries : List (String × ObjectInfo))
  deriving DecidableEq, Repr

/-- Outcome of the cache-loading block in `BACnetMetricQReader.__init__`:
a populated cache, an empty cache after a logged warning, or an uncaught
exception aborting construction. -/
inductive LoadOutcome where
  | loaded (cache : Cache)
  | emptyWithWarning
  | fatal (msg : String)
  deriving DecidableEq, Repr

/-- The dict comprehension over the decoded JSON object, threading the
cache built so far: keys converted in order, the first malformed key
raising. -/
def loadEntriesFrom (acc : Cache) : List (String × ObjectInfo) → Except String Cache
  | [] => .ok acc
  | kv :: rest =>
    match cachekey_str_to_tuple kv.1 with
    | .ok key => loadEntriesFrom (dSet acc key kv.2) rest
    | .error e => .error e

/-- The dict comprehension over the decoded JSON object. -/
def loadEntries (entries : List (String × ObjectInfo)) : Except String Cache :=
  loadEntriesFrom [] entries

/-- True on an `ok` result. -/
def exceptOk {ε α : Type} : Except ε α → Bool
  | .ok _ => true
  | .error _ => false

/-- Embedding of the disk-cache load at startup.  The `try` block catches
exactly `OSError` and `json.decoder.JSONDecodeError`; exceptions raised
while re-keying the decoded object (ValueError from
`_cachekey_str_to_tuple`, AttributeError when the JSON document is not an
object) are not caught. -/
def loadDiskCache : DiskFile → LoadOutcome
  | .absent => .emptyWithWarning
  | .unreadable => .emptyWithWarning
  | .invalidJson => .emptyWithWarning
  | .jsonNonObject => .fatal "AttributeError"
  | .jsonObject entries =>
    match loadEntries entries with
    | .ok c => .loaded c
    | .error m => .fatal m

/-- The apostrophe character (U+0027). -/
def apostropheChar : Char := Char.ofNat 39

/-- The backtick character (U+0060). -/
def backtickChar : Char := Char.ofNat 96

/-- The acute accent character (U+00B4). -/
def acuteChar : Char := Char.ofNat 180

/-- Single-character substring replacement, the effect of Python
`s.replace(c, d)` for one-character arguments. -/
def replaceChar (c d : Char) (l : List Char) : List Char :=
  l.map (fun x => if x = c then d else x)

/-- The metric-id normalization chain of `source.py`:
`.replace(apostrophe, dot).replace(backtick, dot).replace(acute, dot)`
followed by `.replace(space, empty)`. -/
def normalizeMetricId (s : String) : String :=
  String.mk
    ((replaceChar acuteChar '.'
        (replaceChar backtickChar '.'
          (replaceChar apostropheChar '.' s.data))).filter (fun c => c ≠ ' '))

/-- Modelled from the spec: the normalization rule as §8 words it — each
occurrence of apostrophe, backtick and acute becomes a dot, every space
is removed, in one pass over the characters. -/
def specNormalize (s : String) : String :=
  String.mk
    (s.data.filterMap
      (fun c =>
        if c = ' ' then none
        else if c = apostropheChar ∨ c = backtickChar ∨ c = acuteChar then some '.'
        else some c))

/-- Identifier-start characters of the `string.Template` placeholder
pattern (ASCII letter or underscore). -/
def isIdentStart (c : Char) : Bool := c.isAlpha || c = '_'

/-- Identifier-continuation characters of the placeholder pattern. -/
def isIdentChar (c : Char) : Bool := c.isAlphanum || c = '_'

/-- Longest identifier run at the head of the character list. -/
def takeIdent : List Char → List Char × List Char
  | [] => ([], [])
  | c :: rest =>
    if isIdentChar c then
      let r := takeIdent rest
      (c :: r.1, r.2)
    else ([], c :: rest)

/-- Fuel-driven scanner for `string.Template.safe_substitute` restricted
to the placeholder forms the configuration templates use: `$identifier`
(substituted when the name is mapped, left in place otherwise) and `$$`
(an escaped dollar); any other dollar is left unchanged, and
`safe_substitute` never raises. -/
def safeSubFuel (subs : List (String × String)) : Nat → List Char → List Char
  | 0, l => l
  | _ + 1, [] => []
  | fuel + 1, c :: rest =>
    if c = '$' then
      match rest with
      | [] => ['$']
      | c₂ :: rest₂ =>
        if c₂ = '$' then '$' :: safeSubFuel subs fuel rest₂
        else if isIdentStart c₂ then
          let r := takeIdent (c₂ :: rest₂)
          match dLookup subs (String.mk r.1) with
          | some v => v.data ++ safeSubFuel subs fuel r.2
          | none => '$' :: (r.1 ++ safeSubFuel subs fuel r.2)
        else '$' :: safeSubFuel subs fuel rest
    else c :: safeSubFuel subs fuel rest

/-- Python `Template(tmpl).safe_substitute(mapping)`. -/
def safeSubstitute (tmpl : String) (subs : List (String × String)) : String :=
  String.mk (safeSubFuel subs tmpl.data.length tmpl.data)

/-- Metric identifier construction of `_worker_task` (and the identical
code in `task`): substitute `objectName` and `deviceName` into the
group template, then normalize. -/
def metricIdFor (tmpl deviceName objectName : String) : String :=
  normalizeMetricId
    (safeSubstitute tmpl [("objectName", objectName), ("deviceName", deviceName)])


/-! ### Theorems -/

theorem dLookup_dSet {κ : Type} [DecidableEq κ] {α : Type}
    (d : List (κ × α)) (k : κ) (v : α) (k' : κ) :
    dLookup (dSet d k v) k' = if k' = k then some v else dLookup d k' := by
  induction d with
  | nil => simp [dSet, dLookup]
  | cons hd tl ih =>
    obtain ⟨k₀, v₀⟩ := hd
    by_cases h₀ : k₀ = k
    · subst h₀
      simp only [dSet, if_pos rfl, dLookup]
      by_cases h' : k' = k₀ <;> simp [h']
    · simp only [dSet, if_neg h₀, dLookup]
      by_cases h' : k' = k₀
      · subst h'
        simp [h₀]
      · simp [h', ih]

theorem dLookup_eq_none_of_not_mem {κ : Type} [DecidableEq κ] {α : Type}
    (d : List (κ × α)) (k : κ) (h : k ∉ dKeys d) : dLookup d k = none := by
  induction d with
  | nil => rfl
  | cons hd tl ih =>
    obtain ⟨k₀, v₀⟩ := hd
    simp [dKeys] at h
    simp [dLookup, h.1, ih (by simp [dKeys, h.2])]

theorem dLookup_dUpdate {κ : Type} [DecidableEq κ] {α : Type}
    (d p : List (κ × α)) (k : κ) (hp : (dKeys p).Nodup) :
    dLookup (dUpdate d p) k = optOr (dLookup p k) (dLookup d k) := by
  induction p generalizing d with
  | nil => simp [dUpdate, dLookup, optOr]
  | cons hd tl ih =>
    obtain ⟨k₀, v₀⟩ := hd
    simp only [dKeys, List.map_cons, List.nodup_cons] at hp
    have step : dUpdate d ((k₀, v₀) :: tl) = dUpdate (dSet d k₀ v₀) tl := by
      simp [dUpdate, List.foldl_cons]
    rw [step, ih (dSet d k₀ v₀) hp.2]
    by_cases hk : k = k₀
    · subst hk
      have htl : dLookup tl k = none :=
        dLookup_eq_none_of_not_mem tl k (by simpa [dKeys] using hp.1)
      simp [dLookup, htl, optOr, dLookup_dSet]
    · simp [dLookup, hk, dLookup_dSet]

theorem dLookup_dUpdate_isSome {κ : Type} [DecidableEq κ] {α : Type}
    (d p : List (κ × α)) (k : κ) (h : (dLookup (dUpdate d p) k).isSome) :
    (dLookup d k).isSome ∨ (dLookup p k).isSome := by
  induction p generalizing d with
  | nil => exact Or.inl (by simpa [dUpdate] using h)
  | cons hd tl ih =>
    obtain ⟨k₀, v₀⟩ := hd
    have step : dUpdate d ((k₀, v₀) :: tl) = dUpdate (dSet d k₀ v₀) tl := by
      simp [dUpdate, List.foldl_cons]
    rw [step] at h
    rcases ih (dSet d k₀ v₀) h with h₁ | h₂
    · rw [dLookup_dSet] at h₁
      by_cases hk : k = k₀
      · exact Or.inr (by simp [dLookup, hk])
      · exact Or.inl (by simpa [hk] using h₁)
    · by_cases hk : k = k₀
      · exact Or.inr (by simp [dLookup, hk])
      · exact Or.inr (by simpa [dLookup, hk] using h₂)

theorem dLookup_dUpdate_preserve {κ : Type} [DecidableEq κ] {α : Type}
    (d p : List (κ × α)) (k : κ) (h : (dLookup d k).isSome) :
    (dLookup (dUpdate d p) k).isSome := by
  induction p generalizing d with
  | nil => simpa [dUpdate]
  | cons hd tl ih =>
    obtain ⟨k₀, v₀⟩ := hd
    have step : dUpdate d ((k₀, v₀) :: tl) = dUpdate (dSet d k₀ v₀) tl := by
      simp [dUpdate, List.foldl_cons]
    rw [step]
    apply ih
    rw [dLookup_dSet]
    by_cases hk : k = k₀ <;> simp [hk, h]

theorem dLookup_mergeCache (c : Cache) (k : CacheKey) (p : ObjectInfo) (k' : CacheKey) :
    dLookup (mergeCache c k p) k' =
      if k' = k then some (dUpdate ((dLookup c k).getD []) p) else dLookup c k' := by
  unfold mergeCache
  cases h : dLookup c k <;> simp [h, dLookup_dSet]

theorem chunksAux_flatten {α : Type} (n : Nat) (hn : 0 < n) :
    ∀ (fuel : Nat) (l : List α), l.length ≤ fuel →
      (chunksAux fuel l n).flatten = l := by
  intro fuel
  induction fuel with
  | zero =>
    intro l hl
    have : l = [] := List.length_eq_zero.mp (Nat.le_zero.mp hl)
    subst this
    rfl
  | succ fuel ih =>
    intro l hl
    cases l with
    | nil => rfl
    | cons a as =>
      have hne : ¬ (n = 0) := by omega
      simp only [chunksAux, if_neg hne, List.flatten_cons]
      rw [ih ((a :: as).drop n) (by simp [List.length_drop]; simp at hl; omega)]
      exact List.take_append_drop n (a :: as)

theorem chunks_flatten {α : Type} (n : Nat) (hn : 0 < n) (l : List α) :
    (chunks l n).flatten = l :=
  chunksAux_flatten n hn l.length l (Nat.le_refl _)

theorem chunksAux_length_all {α : Type} (n : Nat) :
    ∀ (fuel : Nat) (l : List α),
      (chunksAux fuel l n).all (fun c => decide (c.length ≤ n)) = true := by
  intro fuel
  induction fuel with
  | zero => intro l; cases l <;> rfl
  | succ fuel ih =>
    intro l
    cases l with
    | nil => rfl
    | cons a as =>
      by_cases hn : n = 0
      · simp [chunksAux, hn]
      · simp only [chunksAux, if_neg hn, List.all_cons, Bool.and_eq_true,
          decide_eq_true_eq]
        exact ⟨by rw [List.length_take]; omega, ih _⟩

theorem chunks_length_all {α : Type} (n : Nat) (l : List α) :
    (chunks l n).all (fun c => decide (c.length ≤ n)) = true :=
  chunksAux_length_all n l.length l

theorem catchUp_spec (now interval : Int) (hpos : 0 < interval) :
    ∀ (m : Nat) (d : Int), (now + 1 - d).toNat = m →
      now < (catchUp now interval hpos d).1 ∧
      (catchUp now interval hpos d).1 =
        d + ((catchUp now interval hpos d).2 : Int) * interval := by
  intro m
  induction m using Nat.strong_induction_on with
  | _ m ih =>
    intro d hm
    rw [catchUp]
    by_cases h : d ≤ now
    · have hmeas : (now + 1 - (d + interval)).toNat < m := by omega
      have hrec := ih _ hmeas (d + interval) rfl
      simp only [h, dif_pos]
      refine ⟨hrec.1, ?_⟩
      rw [hrec.2]
      push_cast
      ring
    · rw [dif_neg h]
      exact ⟨by simp; omega, by simp⟩

/-- C6: in the RUNNING poll loop, after an iteration that overruns the
interval, the next deadline used for the sleep satisfies deadline ≥ now
(in fact strictly greater), equals the original deadline plus k·interval
for some integer k ≥ 1, and one warning is logged per skipped interval
(k - 1 warnings); since the resulting deadline is in the future, no
backlog of missed iterations is executed. -/
theorem c6_deadline (deadline now interval : Int) (hpos : 0 < interval) :
    now < (nextDeadline deadline now interval hpos).1 ∧
    (∃ k : Nat, 1 ≤ k ∧
      (nextDeadline deadline now interval hpos).1 = deadline + (k : Int) * interval ∧
      (nextDeadline deadline now interval hpos).2 = k - 1) := by
  have h := catchUp_spec now interval hpos
    ((now + 1 - (deadline + interval)).toNat) (deadline + interval) rfl
  unfold nextDeadline
  refine ⟨h.1, (catchUp now interval hpos (deadline + interval)).2 + 1, by omega, ?_, by omega⟩
  rw [h.2]
  push_cast
  ring

/-- Witness for c6_deadline: interval 2, original deadline 0, an
iteration finishing at time 7 (3.5 intervals late). -/
theorem c6_deadline_witness :
    (0 : Int) < 2 ∧
    ((7 : Int) < (nextDeadline 0 7 2 (by decide)).1 ∧
     (∃ k : Nat, 1 ≤ k ∧
       (nextDeadline 0 7 2 (by decide)).1 = 0 + (k : Int) * 2 ∧
       (nextDeadline 0 7 2 (by decide)).2 = k - 1)) :=
  ⟨by decide, c6_deadline 0 7 2 (by decide)⟩

/-- C7: with no caller-supplied chunk size, object-property requests use
chunks of 20 objects when the device supports segmentation and 4 when it
advertises noSegmentation, and value-only requests use chunks exactly 3
times larger (60 and 12) under the same rule; chunking splits the
requested objects without loss and every chunk respects the bound. -/
theorem c7_chunk_sizes (di : Option DeviceEntry) (objects : List ObjId) :
    objPropChunkSize none di = (if isNoSeg di then 4 else 20) ∧
    requestValuesChunkSize none di = 3 * objPropChunkSize none di ∧
    requestValuesChunkSize none di = (if isNoSeg di then 12 else 60) ∧
    (chunks objects (objPropChunkSize none di)).flatten = objects ∧
    (requestValues objects none di).flatten = objects ∧
    (requestValues objects none di).all
      (fun c => decide (c.length ≤ requestValuesChunkSize none di)) = true := by
  have h1 : objPropChunkSize none di = (if isNoSeg di then 4 else 20) := by
    unfold objPropChunkSize; rfl
  have h2 : requestValuesChunkSize none di = (if isNoSeg di then 12 else 60) := by
    unfold requestValuesChunkSize
    cases hseg : isNoSeg di <;> simp [hseg]
  have hpos1 : 0 < objPropChunkSize none di := by
    rw [h1]; cases isNoSeg di <;> simp
  have hpos2 : 0 < requestValuesChunkSize none di := by
    rw [h2]; cases isNoSeg di <;> simp
  refine ⟨h1, ?_, h2, ?_, ?_, ?_⟩
  · rw [h1, h2]; cases isNoSeg di <;> simp
  · exact chunks_flatten _ hpos1 objects
  · exact chunks_flatten _ hpos2 objects
  · have h := chunks_length_all (requestValuesChunkSize none di) objects
    exact h

theorem optOr_self_assoc {α : Type} (a b : Option α) :
    optOr a (optOr a b) = optOr a b := by
  cases a <;> rfl

theorem dLookup_isSome_mem {κ : Type} [DecidableEq κ] {α : Type}
    (d : List (κ × α)) (k : κ) (h : (dLookup d k).isSome) : k ∈ dKeys d := by
  by_contra hmem
  rw [dLookup_eq_none_of_not_mem d k hmem] at h
  simp at h

/-- C8: the Object Cache merge is idempotent and union-forming — merging
the same partial bundle twice yields the same cache state (pointwise on
every key and property) as merging it once; merging two partials with
disjoint property names under a fresh key yields their union; and a merge
never removes a property already stored under a key. -/
theorem c8_cache_merge (c : Cache) (k : CacheKey) (p q : ObjectInfo)
    (hp : (dKeys p).Nodup) (hq : (dKeys q).Nodup)
    (hdisj : ∀ s ∈ dKeys p, dLookup q s = none)
    (hfresh : dLookup c k = none) :
    (∀ (k' : CacheKey) (s : String),
      propLookup (mergeCache (mergeCache c k p) k p) k' s
        = propLookup (mergeCache c k p) k' s) ∧
    (∀ s : String,
      propLookup (mergeCache (mergeCache c k p) k q) k s
        = optOr (dLookup p s) (dLookup q s)) ∧
    (∀ (c' : Cache) (k₀ k' : CacheKey) (b : ObjectInfo) (s : String),
      (propLookup c' k' s).isSome → (propLookup (mergeCache c' k₀ b) k' s).isSome) := by
  refine ⟨?_, ?_, ?_⟩
  · intro k' s
    unfold propLookup
    rw [dLookup_mergeCache, dLookup_mergeCache]
    by_cases hk : k' = k
    · subst hk
      rw [if_pos rfl, if_pos rfl, dLookup_mergeCache, if_pos rfl]
      simp only [Option.getD_some]
      rw [dLookup_dUpdate _ _ _ hp, dLookup_dUpdate _ _ _ hp, optOr_self_assoc]
    · rw [if_neg hk]
  · intro s
    unfold propLookup
    rw [dLookup_mergeCache, if_pos rfl, dLookup_mergeCache, if_pos rfl, hfresh]
    simp only [Option.getD_some, Option.getD_none]
    rw [dLookup_dUpdate _ _ _ hq, dLookup_dUpdate _ _ _ hp]
    cases hps : dLookup p s with
    | some v =>
      have hqs : dLookup q s = none := by
        apply hdisj
        apply dLookup_isSome_mem
        rw [hps]; rfl
      simp [hqs, optOr]
    | none => cases dLookup q s <;> simp [optOr, dLookup]
  · intro c' k₀ k' b s h
    unfold propLookup at h ⊢
    rw [dLookup_mergeCache]
    by_cases hk : k' = k₀
    · subst hk
      rw [if_pos rfl]
      cases hc : dLookup c' k' with
      | some b₀ =>
        rw [hc] at h
        simp only [Option.getD_some]
        exact dLookup_dUpdate_preserve _ _ _ h
      | none => rw [hc] at h; simp at h
    · rw [if_neg hk]
      exact h

/-- Witness for c8_cache_merge at a concrete cache, key and bundles. -/
theorem c8_cache_merge_witness :
    ((dKeys [("objectName", Val.str "x")]).Nodup ∧
     (dKeys [("units", Val.num 5)]).Nodup ∧
     (∀ s ∈ dKeys [("objectName", Val.str "x")],
        dLookup [("units", Val.num 5)] s = none) ∧
     dLookup ([] : Cache) ("10.0.0.1", "analogInput", 1) = none) ∧
    (∀ s : String,
      propLookup
        (mergeCache (mergeCache [] ("10.0.0.1", "analogInput", 1)
            [("objectName", Val.str "x")])
          ("10.0.0.1", "analogInput", 1) [("units", Val.num 5)])
        ("10.0.0.1", "analogInput", 1) s
        = optOr (dLookup [("objectName", Val.str "x")] s)
            (dLookup [("units", Val.num 5)] s)) :=
  ⟨⟨by decide, by decide, by decide, by decide⟩,
   (c8_cache_merge [] ("10.0.0.1", "analogInput", 1) [("objectName", Val.str "x")]
      [("units", Val.num 5)] (by decide) (by decide) (by decide) (by decide)).2.1⟩

theorem normalize_chars (l : List Char) :
    (replaceChar acuteChar '.'
        (replaceChar backtickChar '.'
          (replaceChar apostropheChar '.' l))).filter (fun c => c ≠ ' ')
    = l.filterMap
        (fun c =>
          if c = ' ' then none
          else if c = apostropheChar ∨ c = backtickChar ∨ c = acuteChar then some '.'
          else some c) := by
  have f1 : ('.' : Char) ≠ backtickChar := by decide
  have f2 : ('.' : Char) ≠ acuteChar := by decide
  have f3 : ('.' : Char) ≠ ' ' := by decide
  have f4 : apostropheChar ≠ ' ' := by decide
  have f5 : backtickChar ≠ ' ' := by decide
  have f6 : acuteChar ≠ ' ' := by decide
  have f7 : backtickChar ≠ apostropheChar := by decide
  have f8 : acuteChar ≠ apostropheChar := by decide
  have f9 : acuteChar ≠ backtickChar := by decide
  induction l with
  | nil => rfl
  | cons c rest ih =>
    simp only [replaceChar, List.map_cons] at ih ⊢
    by_cases h1 : c = apostropheChar
    · subst h1
      simp [List.filter_cons, List.filterMap_cons, f1, f2, f3, f4]
      simpa [List.map_map] using ih
    · by_cases h2 : c = backtickChar
      · subst h2
        simp [List.filter_cons, List.filterMap_cons, f1, f2, f3, f5, f7]
        simpa [List.map_map] using ih
      · by_cases h3 : c = acuteChar
        · subst h3
          simp [List.filter_cons, List.filterMap_cons, f2, f3, f6, f8, f9]
          simpa [List.map_map] using ih
        · by_cases h4 : c = ' '
          · subst h4
            simp [List.filter_cons, List.filterMap_cons, Ne.symm f4, Ne.symm f5,
              Ne.symm f6]
            simpa [List.map_map] using ih
          · simp [List.filter_cons, List.filterMap_cons, h1, h2, h3, h4]
            simpa [List.map_map] using ih

/-- C9: every published metric identifier is the template with
`$objectName` and `$deviceName` substituted, normalized by exactly the
rule of the spec (apostrophe, backtick and acute each become a dot and
every space is removed), and the normalization agrees pointwise with the
one-pass spec rule; on the spec example (device name with an apostrophe
and a space, object name with a space) the computed identifier is shown
explicitly. -/
theorem c9_metric_id :
    (∀ s : String, normalizeMetricId s = specNormalize s) ∧
    metricIdFor "$deviceName.$objectName"
      (String.mk ['B', 'ü', 'r', 'o', apostropheChar, 's', ' ', 'S', 'e', 'n', 's', 'o', 'r'])
      "Temp 1" = "Büro.sSensor.Temp1" := by
  constructor
  · intro s
    unfold normalizeMetricId specNormalize
    rw [normalize_chars]
  · rfl

theorem iocbStep_names (cache : Cache) (srcAddr : String)
    (acc : List (Val × ObjectInfo)) (ov : ObjId × ObjectInfo) (nm : Val)
    (h : (dLookup (iocbStep cache srcAddr acc ov) nm).isSome) :
    (dLookup acc nm).isSome ∨
      propLookup cache (srcAddr, ov.1.1, ov.1.2) "objectName" = some nm := by
  unfold iocbStep at h
  split at h
  · rename_i n heq
    split at h
    · rename_i ht
      rw [dLookup_dSet] at h
      by_cases hnm : nm = n
      · subst hnm
        exact Or.inr heq
      · exact Or.inl (by simpa [hnm] using h)
    · exact Or.inl h
  · exact Or.inl h

theorem iocb_fold_names (cache : Cache) (srcAddr : String) :
    ∀ (results : UnpackedResult) (acc : List (Val × ObjectInfo)) (nm : Val),
      (dLookup (results.foldl (iocbStep cache srcAddr) acc) nm).isSome →
      (dLookup acc nm).isSome ∨
        ∃ oid b, (oid, b) ∈ results ∧
          propLookup cache (srcAddr, oid.1, oid.2) "objectName" = some nm := by
  intro results
  induction results with
  | nil => intro acc nm h; exact Or.inl (by simpa using h)
  | cons hd tl ih =>
    intro acc nm h
    rw [List.foldl_cons] at h
    rcases ih _ nm h with h₁ | ⟨oid, b, hmem, hname⟩
    · rcases iocbStep_names cache srcAddr acc hd nm h₁ with h₂ | h₂
      · exact Or.inl h₂
      · exact Or.inr ⟨hd.1, hd.2, by simp, h₂⟩
    · exact Or.inr ⟨oid, b, List.mem_cons_of_mem _ hmem, hname⟩

/-- C10: in the fire-and-forget value-poll completion callback, a poll
result is forwarded to the Result Relay Queue only under a device name
found in the Object Cache — when the cached device objectName is absent
the whole result is dropped — and every object of a forwarded result
whose objectName is not in the cache is omitted: each name appearing in
the forwarded mapping is the cached objectName of some reported object. -/
theorem c10_iocb_filter (cache : Cache) (deviceId : Int) (srcAddr : String)
    (isAck : Bool) (results : UnpackedResult) :
    (propLookup cache (srcAddr, "device", deviceId) "objectName" = none →
      iocbCallback cache deviceId srcAddr isAck results = none) ∧
    (∀ (dn : Val) (a : String) (rv : List (Val × ObjectInfo)),
      iocbCallback cache deviceId srcAddr isAck results = some (dn, a, rv) →
      ∀ nm : Val, (dLookup rv nm).isSome →
        ∃ oid b, (oid, b) ∈ results ∧
          propLookup cache (srcAddr, oid.1, oid.2) "objectName" = some nm) := by
  constructor
  · intro h
    unfold iocbCallback
    cases isAck with
    | false => rfl
    | true => simp [h]
  · intro dn a rv heq nm hsome
    unfold iocbCallback at heq
    cases isAck with
    | false => simp at heq
    | true =>
      simp only [Bool.not_true, Bool.false_eq_true, if_false] at heq
      split at heq
      · rename_i d hdl
        split at heq
        · injection heq with htup
          cases htup
          rcases iocb_fold_names cache srcAddr results [] nm hsome with h₁ | h₂
          · simp [dLookup] at h₁
          · exact h₂
        · exact absurd heq (by simp)
      · exact absurd heq (by simp)

/-- Witness for c10_iocb_filter: an empty cache drops the poll result. -/
theorem c10_iocb_filter_witness :
    propLookup ([] : Cache) ("10.0.0.1", "device", 5) "objectName" = none ∧
    iocbCallback [] 5 "10.0.0.1" true [(("analogInput", 1), [("presentValue", Val.num 3)])] = none :=
  ⟨rfl, (c10_iocb_filter [] 5 "10.0.0.1" true
    [(("analogInput", 1), [("presentValue", Val.num 3)])]).1 rfl⟩

/-- C1 counterexample: with `description` already cached for the device
key and a successful response carrying only `objectName`, the call merges
both properties into the cache but returns only the response bundle — the
returned mapping lacks the previously cached `description`, so it is not
the full resulting bundle for the device key. -/
theorem c1_counterexample :
    requestDeviceProperties
      [(("10.0.0.1", "device", 7), [("description", Val.str "old")])]
      "10.0.0.1" none false (some ⟨7, "segmentedBoth"⟩)
      (some [(("device", 7), [("objectName", Val.str "X")])])
    = .ok ([(("10.0.0.1", "device", 7),
            [("description", Val.str "old"), ("objectName", Val.str "X")])],
           some [("objectName", Val.str "X")]) ∧
    dLookup [("objectName", Val.str "X")] "description" = none ∧
    propLookup
      [(("10.0.0.1", "device", 7),
        [("description", Val.str "old"), ("objectName", Val.str "X")])]
      ("10.0.0.1", "device", 7) "description" = some (Val.str "old") :=
  ⟨rfl, rfl, rfl⟩

/-- C1 (amended): for every call that performs a network read and gets a
successful response containing the device object, the function merges the
response bundle into the Object Cache under the device cache key — the
merged cache keeps every previously cached property — and returns exactly
the bundle unpacked from the response, which does not include previously
cached properties absent from the response. -/
theorem c1_request_device_props (cache : Cache) (addrStr : String)
    (propertiesOpt : Option (List String)) (skipWhenCached : Bool)
    (di : DeviceEntry) (rv : UnpackedResult) (bundle : ObjectInfo)
    (hskip : deviceSkipHit cache (addrStr, "device", di.deviceIdentifier)
        (propertiesOpt.getD ["objectName", "description"]) skipWhenCached = false)
    (hresp : dLookup rv ("device", di.deviceIdentifier) = some bundle) :
    requestDeviceProperties cache addrStr propertiesOpt skipWhenCached
        (some di) (some rv)
      = .ok (mergeCache cache (addrStr, "device", di.deviceIdentifier) bundle,
             some bundle) ∧
    (∀ (s : String) (v : Val),
      propLookup cache (addrStr, "device", di.deviceIdentifier) s = some v →
      (propLookup (mergeCache cache (addrStr, "device", di.deviceIdentifier) bundle)
        (addrStr, "device", di.deviceIdentifier) s).isSome) := by
  constructor
  · unfold requestDeviceProperties
    dsimp only
    rw [hskip, hresp]
    simp
  · intro s v hv
    unfold propLookup at hv ⊢
    rw [dLookup_mergeCache, if_pos rfl]
    cases hc : dLookup cache (addrStr, "device", di.deviceIdentifier) with
    | some b₀ =>
      rw [hc] at hv
      dsimp only at hv
      simp only [Option.getD_some]
      exact dLookup_dUpdate_preserve _ _ _ (by rw [hv]; rfl)
    | none => rw [hc] at hv; simp at hv

/-- Witness for c1_request_device_props at the concrete inputs of the
counterexample. -/
theorem c1_request_device_props_witness :
    (deviceSkipHit [(("10.0.0.1", "device", 7), [("description", Val.str "old")])]
        ("10.0.0.1", "device", 7) ["objectName", "description"] false = false ∧
     dLookup [(("device", 7), [("objectName", Val.str "X")])] (("device", 7) : ObjId)
        = some [("objectName", Val.str "X")]) ∧
    requestDeviceProperties
      [(("10.0.0.1", "device", 7), [("description", Val.str "old")])]
      "10.0.0.1" none false (some ⟨7, "segmentedBoth"⟩)
      (some [(("device", 7), [("objectName", Val.str "X")])])
    = .ok (mergeCache [(("10.0.0.1", "device", 7), [("description", Val.str "old")])]
             ("10.0.0.1", "device", 7) [("objectName", Val.str "X")],
           some [("objectName", Val.str "X")]) :=
  ⟨⟨rfl, rfl⟩,
   (c1_request_device_props
     [(("10.0.0.1", "device", 7), [("description", Val.str "old")])]
     "10.0.0.1" none false ⟨7, "segmentedBoth"⟩
     [(("device", 7), [("objectName", Val.str "X")])]
     [("objectName", Val.str "X")] rfl rfl).1⟩

/-- C3 counterexample: interval 1, last publish at time 0, first check at
time 10 (silence of 10 intervals).  The check emits one sentinel at
timestamp 5 and advances the bookkeeping to 5; the very next check one
interval later (time 11) sees 11 - 5 = 6 ≥ 6·interval and emits a second
sentinel before any real value arrived — refuting the claim that the
advanced bookkeeping prevents a second sentinel on the next check. -/
theorem c3_counterexample :
    sentinelCheckEnabled true 1 10 [("m", 0)] "m" = (some 5, [("m", 5)]) ∧
    sentinelCheckEnabled true 1 11 [("m", 5)] "m" = (some 10, [("m", 10)]) := by
  constructor <;> rfl

/-- C3 (amended): for a metric of a group with the timeout-to-NaN flag,
when a check at time `now` finds the last publish `last` at least
6·interval old, exactly one sentinel is emitted with timestamp
`last + 5·interval` and the bookkeeping advances to that timestamp; on
the next check one interval later no second sentinel is emitted provided
the silence observed at the first check was below 10·interval, while a
silence of at least 10·interval does produce a second sentinel at
`last + 10·interval` before any real value arrives. -/
theorem c3_sentinel (interval now last : Int) (ls : List (String × Int))
    (m : String) (hpos : 0 < interval) (hl : dLookup ls m = some last)
    (hto : 6 * interval ≤ now - last) :
    sentinelCheckEnabled true interval now ls m
      = (some (last + 5 * interval), dSet ls m (last + 5 * interval)) ∧
    (now - last < 10 * interval →
      (sentinelCheckEnabled true interval (now + interval)
        (dSet ls m (last + 5 * interval)) m).1 = none) ∧
    (10 * interval ≤ now - last →
      (sentinelCheckEnabled true interval (now + interval)
        (dSet ls m (last + 5 * interval)) m).1 = some (last + 10 * interval)) := by
  have hset : dLookup (dSet ls m (last + 5 * interval)) m = some (last + 5 * interval) := by
    rw [dLookup_dSet, if_pos rfl]
  refine ⟨?_, ?_, ?_⟩
  · unfold sentinelCheckEnabled sentinelStep
    rw [if_pos rfl, hl]
    simp only [Option.getD_some]
    rw [if_pos hto]
  · intro hlt
    unfold sentinelCheckEnabled sentinelStep
    rw [if_pos rfl, hset]
    simp only [Option.getD_some]
    rw [if_neg (by omega)]
  · intro hge
    unfold sentinelCheckEnabled sentinelStep
    rw [if_pos rfl, hset]
    simp only [Option.getD_some]
    rw [if_pos (by omega)]
    simp only [Prod.fst]
    congr 1
    ring

/-- Witness for c3_sentinel: interval 1, last publish 0, check at 6. -/
theorem c3_sentinel_witness :
    ((0 : Int) < 1 ∧ dLookup [("m", (0 : Int))] "m" = some 0 ∧
      (6 : Int) * 1 ≤ 6 - 0) ∧
    sentinelCheckEnabled true 1 6 [("m", 0)] "m" = (some 5, [("m", 5)]) ∧
    (sentinelCheckEnabled true 1 7 [("m", 5)] "m").1 = none := by
  have h := c3_sentinel 1 6 0 [("m", 0)] "m" (by decide) rfl (by decide)
  refine ⟨⟨by decide, rfl, by decide⟩, ?_, ?_⟩
  · have h1 := h.1
    norm_num at h1 ⊢
    exact h1
  · have h2 := h.2.1 (by decide)
    norm_num at h2 ⊢
    exact h2

theorem runChunks_fold_sources (addrStr : String)
    (net : List ObjId → Option UnpackedResult) :
    ∀ (cs : List (List ObjId)) (acc : Cache × UnpackedResult) (oid : ObjId),
      (dLookup
        (cs.foldl
          (fun acc chunk =>
            match net chunk with
            | some rv =>
              (rv.foldl (fun c ov => mergeCache c (addrStr, ov.1.1, ov.1.2) ov.2) acc.1,
               dUpdate acc.2 rv)
            | none => acc)
          acc).2 oid).isSome →
      (dLookup acc.2 oid).isSome ∨
        ∃ chunk ∈ cs, ∃ rv, net chunk = some rv ∧ (dLookup rv oid).isSome := by
  intro cs
  induction cs with
  | nil => intro acc oid h; exact Or.inl (by simpa using h)
  | cons hd tl ih =>
    intro acc oid h
    rw [List.foldl_cons] at h
    rcases ih _ oid h with h₁ | ⟨chunk, hmem, rv, hnet, hrv⟩
    · cases hn : net hd with
      | some rv =>
        rw [hn] at h₁
        dsimp only at h₁
        rcases dLookup_dUpdate_isSome _ _ _ h₁ with h₂ | h₂
        · exact Or.inl h₂
        · exact Or.inr ⟨hd, by simp, rv, hn, h₂⟩
      | none =>
        rw [hn] at h₁
        exact Or.inl h₁
    · exact Or.inr ⟨chunk, List.mem_cons_of_mem _ hmem, rv, hnet, hrv⟩

/-- C4 counterexample: with `skip_when_cached` set, (a) when every
requested object is fully cached the call returns an absent result, not
the cached bundles, although a cached bundle exists; and (b) an object
filtered out as cached contributes nothing to the returned mapping, which
holds only the bundles actually fetched. -/
theorem c4_counterexample :
    (requestObjectProperties
        [(("a", "analogInput", 1),
          [("objectName", Val.str "n"), ("description", Val.str "d"),
           ("units", Val.str "u")])]
        "a" [("analogInput", 1)] none true none (some ⟨7, "segmentedBoth"⟩)
        (fun _ => none)
      = ([(("a", "analogInput", 1),
          [("objectName", Val.str "n"), ("description", Val.str "d"),
           ("units", Val.str "u")])], none) ∧
     propLookup
        [(("a", "analogInput", 1),
          [("objectName", Val.str "n"), ("description", Val.str "d"),
           ("units", Val.str "u")])]
        ("a", "analogInput", 1) "objectName" = some (Val.str "n")) ∧
    (dLookup
      ((requestObjectProperties
        [(("a", "analogInput", 1),
          [("objectName", Val.str "n"), ("description", Val.str "d"),
           ("units", Val.str "u")])]
        "a" [("analogInput", 1), ("analogInput", 2)] none true none
        (some ⟨7, "segmentedBoth"⟩)
        (fun chunk =>
          if chunk = [(("analogInput" : String), (2 : Int))] then
            some [((("analogInput" : String), (2 : Int)),
              [("objectName", Val.str "n2"), ("description", Val.str "d2"),
               ("units", Val.str "u2")])]
          else none)).2.getD [])
      (("analogInput" : String), (1 : Int)) = none ∧
     (dLookup
      ((requestObjectProperties
        [(("a", "analogInput", 1),
          [("objectName", Val.str "n"), ("description", Val.str "d"),
           ("units", Val.str "u")])]
        "a" [("analogInput", 1), ("analogInput", 2)] none true none
        (some ⟨7, "segmentedBoth"⟩)
        (fun chunk =>
          if chunk = [(("analogInput" : String), (2 : Int))] then
            some [((("analogInput" : String), (2 : Int)),
              [("objectName", Val.str "n2"), ("description", Val.str "d2"),
               ("units", Val.str "u2")])]
          else none)).2.getD [])
      (("analogInput" : String), (2 : Int))).isSome = true) :=
  ⟨⟨rfl, rfl⟩, rfl, rfl⟩

/-- C4 (amended): under `skip_when_cached`, when every requested object
already has all requested properties cached the call returns an absent
result (the unchanged cache and no mapping); otherwise the returned
mapping holds exactly the bundles fetched from the per-chunk responses —
every entry of the result comes from some chunk response, so objects
filtered out as cached (and absent from every response) contribute
nothing. -/
theorem c4_request_object_props (cache : Cache) (addrStr : String)
    (objects : List ObjId) (propertiesOpt : Option (List String))
    (chunkSizeOpt : Option Nat) (di : Option DeviceEntry)
    (net : List ObjId → Option UnpackedResult) :
    (objects.all
        (fullyCached cache addrStr
          (propertiesOpt.getD ["objectName", "description", "units"])) = true →
      requestObjectProperties cache addrStr objects propertiesOpt true
        chunkSizeOpt di net = (cache, none)) ∧
    (∀ rv,
      (requestObjectProperties cache addrStr objects propertiesOpt true
        chunkSizeOpt di net).2 = some rv →
      ∀ oid : ObjId, (dLookup rv oid).isSome →
        ∃ chunk ∈ chunks
            (objects.filter
              (fun o => !(fullyCached cache addrStr
                (propertiesOpt.getD ["objectName", "description", "units"]) o)))
            (objPropChunkSize chunkSizeOpt di),
          ∃ resp, net chunk = some resp ∧ (dLookup resp oid).isSome) := by
  constructor
  · intro hall
    unfold requestObjectProperties
    dsimp only
    rw [if_pos rfl]
    have hfilter : objects.filter
        (fun o => !(fullyCached cache addrStr
          (propertiesOpt.getD ["objectName", "description", "units"]) o)) = [] := by
      rw [List.filter_eq_nil_iff]
      intro a ha
      have := List.all_eq_true.mp hall a ha
      simp [this]
    rw [hfilter]
    rfl
  · intro rv hrv oid hsome
    unfold requestObjectProperties at hrv
    dsimp only at hrv
    rw [if_pos rfl] at hrv
    set filtered := objects.filter
      (fun o => !(fullyCached cache addrStr
        (propertiesOpt.getD ["objectName", "description", "units"]) o)) with hf
    by_cases hemp : filtered.isEmpty
    · rw [if_pos hemp] at hrv
      simp at hrv
    · rw [if_neg hemp] at hrv
      dsimp only at hrv
      unfold runChunks at hrv
      have hrveq : rv = ((chunks filtered (objPropChunkSize chunkSizeOpt di)).foldl
          (fun acc chunk =>
            match net chunk with
            | some rv =>
              (rv.foldl (fun c ov => mergeCache c (addrStr, ov.1.1, ov.1.2) ov.2) acc.1,
               dUpdate acc.2 rv)
            | none => acc)
          (cache, [])).2 := by
        exact (Option.some.injEq _ _ ▸ hrv).symm
      rw [hrveq] at hsome
      rcases runChunks_fold_sources addrStr net _ (cache, []) oid hsome with h₁ | h₂
      · simp [dLookup] at h₁
      · exact h₂

theorem loadEntriesFrom_ok (entries : List (String × ObjectInfo))
    (h : ∀ kv ∈ entries, exceptOk (cachekey_str_to_tuple kv.1) = true) :
    ∀ acc : Cache, ∃ c, loadEntriesFrom acc entries = .ok c := by
  induction entries with
  | nil => intro acc; exact ⟨acc, rfl⟩
  | cons kv rest ih =>
    intro acc
    have hkv := h kv (List.mem_cons_self _ _)
    cases hpk : cachekey_str_to_tuple kv.1 with
    | ok key =>
      have hrest : ∀ kv ∈ rest, exceptOk (cachekey_str_to_tuple kv.1) = true :=
        fun kv hm => h kv (List.mem_cons_of_mem _ hm)
      obtain ⟨c, hc⟩ := ih hrest (dSet acc key kv.2)
      exact ⟨c, by simp only [loadEntriesFrom, hpk]; exact hc⟩
    | error e =>
      rw [hpk] at hkv
      simp [exceptOk] at hkv

theorem loadEntriesFrom_err (entries : List (String × ObjectInfo))
    (h : ∃ kv ∈ entries, exceptOk (cachekey_str_to_tuple kv.1) = false) :
    ∀ acc : Cache, ∃ m, loadEntriesFrom acc entries = .error m := by
  induction entries with
  | nil => obtain ⟨kv, hm, _⟩ := h; simp at hm
  | cons kv rest ih =>
    intro acc
    cases hpk : cachekey_str_to_tuple kv.1 with
    | ok key =>
      have hrest : ∃ kv ∈ rest, exceptOk (cachekey_str_to_tuple kv.1) = false := by
        obtain ⟨kv', hm, hbad⟩ := h
        rcases List.mem_cons.mp hm with heq | hm'
        · subst heq
          rw [hpk] at hbad
          simp [exceptOk] at hbad
        · exact ⟨kv', hm', hbad⟩
      obtain ⟨m, hm⟩ := ih hrest (dSet acc key kv.2)
      exact ⟨m, by simp only [loadEntriesFrom, hpk]; exact hm⟩
    | error e =>
      exact ⟨e, by simp only [loadEntriesFrom, hpk]⟩

/-- C5 counterexample: a file whose contents are valid JSON (an object)
but whose key is not in the composite format does not degrade to an
empty cache — the constructor aborts with an uncaught ValueError. -/
theorem c5_counterexample :
    loadDiskCache (.jsonObject [("foo", [("objectName", Val.str "x")])])
      = .fatal "ValueError: not enough values to unpack" ∧
    loadDiskCache (.jsonObject [("foo", [("objectName", Val.str "x")])])
      ≠ .emptyWithWarning ∧
    (∀ c : Cache,
      loadDiskCache (.jsonObject [("foo", [("objectName", Val.str "x")])])
        ≠ .loaded c) := by
  refine ⟨rfl, by decide, ?_⟩
  intro c h
  rw [show loadDiskCache (.jsonObject [("foo", [("objectName", Val.str "x")])])
      = .fatal "ValueError: not enough values to unpack" from rfl] at h
  exact LoadOutcome.noConfusion h

/-- C5 (amended): an absent, unreadable or JSON-invalid disk cache file
degrades to an empty in-memory cache with a logged warning; but contents
that are valid JSON yet not an object, or an object with a key outside
the composite format, raise an uncaught exception that aborts
construction; an object whose keys all parse loads normally. -/
theorem c5_disk_cache (entries : List (String × ObjectInfo)) :
    loadDiskCache .absent = .emptyWithWarning ∧
    loadDiskCache .unreadable = .emptyWithWarning ∧
    loadDiskCache .invalidJson = .emptyWithWarning ∧
    loadDiskCache .jsonNonObject = .fatal "AttributeError" ∧
    ((∀ kv ∈ entries, exceptOk (cachekey_str_to_tuple kv.1) = true) →
      ∃ c, loadDiskCache (.jsonObject entries) = .loaded c) ∧
    ((∃ kv ∈ entries, exceptOk (cachekey_str_to_tuple kv.1) = false) →
      ∃ m, loadDiskCache (.jsonObject entries) = .fatal m) := by
  refine ⟨rfl, rfl, rfl, rfl, ?_, ?_⟩
  · intro h
    obtain ⟨c, hc⟩ := loadEntriesFrom_ok entries h []
    exact ⟨c, by simp only [loadDiskCache, loadEntries, hc]⟩
  · intro h
    obtain ⟨m, hm⟩ := loadEntriesFrom_err entries h []
    exact ⟨m, by simp only [loadDiskCache, loadEntries, hm]⟩

/-- Witness for c5_disk_cache: a malformed key aborts the load. -/
theorem c5_disk_cache_witness :
    (∃ kv ∈ [("foo", [("objectName", Val.str "x")])],
      exceptOk (cachekey_str_to_tuple kv.1) = false) ∧
    (∃ m, loadDiskCache (.jsonObject [("foo", [("objectName", Val.str "x")])])
      = .fatal m) :=
  ⟨⟨("foo", [("objectName", Val.str "x")]), by simp, rfl⟩,
   (c5_disk_cache [("foo", [("objectName", Val.str "x")])]).2.2.2.2.2
     ⟨("foo", [("objectName", Val.str "x")]), by simp, rfl⟩⟩

theorem pg_ok (gs : List GroupCfg)
    (h : ∀ g ∈ gs, (unpack_range g.objectInstance).isSome) :
    ∀ (acc : List (String × List Int)) (err : Bool),
      ∃ r, processGroups gs acc err = .ok r := by
  induction gs with
  | nil => intro acc err; exact ⟨(acc, err), rfl⟩
  | cons g rest ih =>
    intro acc err
    have hg := h g (List.mem_cons_self _ _)
    have hrest : ∀ g ∈ rest, (unpack_range g.objectInstance).isSome :=
      fun g hm => h g (List.mem_cons_of_mem _ hm)
    cases hpr : unpack_range g.objectInstance with
    | none => rw [hpr] at hg; simp at hg
    | some insts =>
      cases hdl : dLookup acc g.objectType with
      | some prev =>
        obtain ⟨r, hr⟩ := ih hrest
          (dSet acc g.objectType (prev ++ insts.filter (fun i => !prev.contains i)))
          (err || insts.any (fun i => prev.contains i))
        exact ⟨r, by simp only [processGroups, hpr, hdl]; exact hr⟩
      | none =>
        obtain ⟨r, hr⟩ := ih hrest (dSet acc g.objectType insts) err
        exact ⟨r, by simp only [processGroups, hpr, hdl]; exact hr⟩

theorem pg_err_mono (gs : List GroupCfg) :
    ∀ (acc : List (String × List Int)) (r : List (String × List Int) × Bool),
      processGroups gs acc true = .ok r → r.2 = true := by
  induction gs with
  | nil =>
    intro acc r h
    simp only [processGroups] at h
    cases h
    rfl
  | cons g rest ih =>
    intro acc r h
    simp only [processGroups] at h
    cases hpr : unpack_range g.objectInstance with
    | none => rw [hpr] at h; simp at h
    | some insts =>
      rw [hpr] at h
      cases hdl : dLookup acc g.objectType with
      | some prev =>
        rw [hdl] at h
        dsimp only at h
        rw [Bool.true_or] at h
        exact ih _ r h
      | none =>
        rw [hdl] at h
        exact ih _ r h

theorem pg_mem_mono (gs : List GroupCfg) :
    ∀ (acc : List (String × List Int)) (err : Bool)
      (r : List (String × List Int) × Bool) (t : String) (x : Int) (xs : List Int),
      processGroups gs acc err = .ok r →
      dLookup acc t = some xs → x ∈ xs →
      ∃ xs', dLookup r.1 t = some xs' ∧ x ∈ xs' := by
  induction gs with
  | nil =>
    intro acc err r t x xs h hl hx
    simp only [processGroups] at h
    cases h
    exact ⟨xs, hl, hx⟩
  | cons g rest ih =>
    intro acc err r t x xs h hl hx
    simp only [processGroups] at h
    cases hpr : unpack_range g.objectInstance with
    | none => rw [hpr] at h; simp at h
    | some insts =>
      rw [hpr] at h
      cases hdl : dLookup acc g.objectType with
      | some prev =>
        rw [hdl] at h
        dsimp only at h
        by_cases heq : t = g.objectType
        · subst heq
          have hxs : xs = prev := by
            rw [hl] at hdl
            exact (Option.some.injEq _ _ ▸ hdl)
          subst hxs
          refine ih _ _ r _ x (xs ++ insts.filter (fun i => !xs.contains i)) h ?_ ?_
          · rw [dLookup_dSet, if_pos rfl]
          · exact List.mem_append_left _ hx
        · refine ih _ _ r t x xs h ?_ hx
          rw [dLookup_dSet, if_neg heq]
          exact hl
      | none =>
        rw [hdl] at h
        by_cases heq : t = g.objectType
        · subst heq
          rw [hl] at hdl
          cases hdl
        · refine ih _ _ r t x xs h ?_ hx
          rw [dLookup_dSet, if_neg heq]
          exact hl

theorem pg_trigger (g : GroupCfg) (rest : List GroupCfg)
    (acc : List (String × List Int)) (err : Bool) (insts prev : List Int)
    (hpr : unpack_range g.objectInstance = some insts)
    (hdl : dLookup acc g.objectType = some prev)
    (x : Int) (hx1 : x ∈ insts) (hx2 : x ∈ prev)
    (r : List (String × List Int) × Bool)
    (h : processGroups (g :: rest) acc err = .ok r) : r.2 = true := by
  simp only [processGroups, hpr, hdl] at h
  have hov : insts.any (fun i => prev.contains i) = true :=
    List.any_eq_true.mpr ⟨x, hx1, List.elem_eq_true_of_mem hx2⟩
  rw [hov, Bool.or_true] at h
  exact pg_err_mono rest _ r h

theorem pg_append (a b : List GroupCfg) :
    ∀ (acc : List (String × List Int)) (err : Bool),
      processGroups (a ++ b) acc err =
        match processGroups a acc err with
        | .ok r => processGroups b r.1 r.2
        | .error m => .error m := by
  induction a with
  | nil => intro acc err; simp only [List.nil_append, processGroups]
  | cons g rest ih =>
    intro acc err
    simp only [List.cons_append, processGroups]
    cases hpr : unpack_range g.objectInstance with
    | none => rfl
    | some insts =>
      cases hdl : dLookup acc g.objectType with
      | some prev => exact ih _ _
      | none => exact ih _ _

theorem device_overlap (l₁ l₂ l₃ : List GroupCfg) (gi gj : GroupCfg)
    (ht : gj.objectType = gi.objectType)
    (ii ij : List Int) (x : Int)
    (hi : unpack_range gi.objectInstance = some ii)
    (hj : unpack_range gj.objectInstance = some ij)
    (hxi : x ∈ ii) (hxj : x ∈ ij) :
    ∀ r, processGroups (l₁ ++ gi :: l₂ ++ gj :: l₃) [] false = .ok r →
      r.2 = true := by
  intro r hr
  rw [show l₁ ++ gi :: l₂ ++ gj :: l₃ = l₁ ++ (gi :: (l₂ ++ gj :: l₃)) by simp]
    at hr
  rw [pg_append] at hr
  cases h₁ : processGroups l₁ [] false with
  | error m => rw [h₁] at hr; simp at hr
  | ok r₁ =>
    rw [h₁] at hr
    dsimp only at hr
    have hstep : ∃ acc₂ err₂,
        processGroups (l₂ ++ gj :: l₃) acc₂ err₂ = .ok r ∧
        ∃ xs, dLookup acc₂ gi.objectType = some xs ∧ x ∈ xs := by
      simp only [processGroups, hi] at hr
      cases hdl : dLookup r₁.1 gi.objectType with
      | some prev =>
        rw [hdl] at hr
        dsimp only at hr
        refine ⟨_, _, hr, prev ++ ii.filter (fun i => !prev.contains i), ?_, ?_⟩
        · rw [dLookup_dSet, if_pos rfl]
        · by_cases hp : x ∈ prev
          · exact List.mem_append_left _ hp
          · refine List.mem_append_right _ ?_
            rw [List.mem_filter]
            exact ⟨hxi, by simp [List.elem_eq_mem, hp]⟩
      | none =>
        rw [hdl] at hr
        refine ⟨_, _, hr, ii, ?_, hxi⟩
        rw [dLookup_dSet, if_pos rfl]
    obtain ⟨acc₂, err₂, hr₂, xs, hxs, hxmem⟩ := hstep
    rw [pg_append] at hr₂
    cases h₂ : processGroups l₂ acc₂ err₂ with
    | error m => rw [h₂] at hr₂; simp at hr₂
    | ok r₂ =>
      rw [h₂] at hr₂
      dsimp only at hr₂
      obtain ⟨xs₂, hxs₂, hxmem₂⟩ :=
        pg_mem_mono l₂ acc₂ err₂ r₂ gi.objectType x xs h₂ hxs hxmem
      refine pg_trigger gj l₃ r₂.1 r₂.2 ij xs₂ hj ?_ x hxj hxmem₂ r hr₂
      rw [ht]
      exact hxs₂

theorem pd_err_true (cfg : Config)
    (hok : ∀ d ∈ cfg, ∃ r, processGroups d.groups [] false = .ok r) :
    processDevicesFrom cfg true = .ok true := by
  induction cfg with
  | nil => rfl
  | cons d rest ih =>
    obtain ⟨r, hr⟩ := hok d (List.mem_cons_self _ _)
    simp only [processDevicesFrom, hr, Bool.true_or]
    exact ih (fun d' hm => hok d' (List.mem_cons_of_mem _ hm))

theorem pd_flag (cfg : Config) (d : DeviceCfg) (hd : d ∈ cfg)
    (hflag : ∀ r, processGroups d.groups [] false = .ok r → r.2 = true)
    (hok : ∀ d' ∈ cfg, ∃ r, processGroups d'.groups [] false = .ok r) :
    processDevicesFrom cfg false = .ok true := by
  induction cfg with
  | nil => simp at hd
  | cons d₀ rest ih =>
    obtain ⟨r₀, hr₀⟩ := hok d₀ (List.mem_cons_self _ _)
    simp only [processDevicesFrom, hr₀, Bool.false_or]
    have hokrest : ∀ d' ∈ rest, ∃ r, processGroups d'.groups [] false = .ok r :=
      fun d' hm => hok d' (List.mem_cons_of_mem _ hm)
    rcases List.mem_cons.mp hd with heq | hmem
    · subst heq
      rw [hflag r₀ hr₀]
      exact pd_err_true rest hokrest
    · cases hb : r₀.2 with
      | true => exact pd_err_true rest hokrest
      | false => exact ih hmem hokrest

/-- C2 counterexample: a device configured with object type `analogInput`
and overlapping ranges `1-5` and `3-7`, reloaded while 2 workers of the
previous configuration run.  The reload is rejected and no new worker
starts, but its very first action stops the old workers — they are not
left running, contradicting the claim that the previous configuration's
workers are untouched until explicitly stopped. -/
theorem c2_counterexample :
    onConfig 2 [⟨"10.0.0.1", [⟨"analogInput", "1-5", 1⟩, ⟨"analogInput", "3-7", 1⟩]⟩]
      = ([WorkerAction.stopWorkers 2],
         .error "Config has errors! See previous log.") ∧
    WorkerAction.stopWorkers 2 ∈
      (onConfig 2
        [⟨"10.0.0.1", [⟨"analogInput", "1-5", 1⟩, ⟨"analogInput", "3-7", 1⟩]⟩]).1 :=
  ⟨rfl, by rw [show (onConfig 2
      [⟨"10.0.0.1", [⟨"analogInput", "1-5", 1⟩, ⟨"analogInput", "3-7", 1⟩]⟩]).1
      = [WorkerAction.stopWorkers 2] from rfl]; exact List.mem_singleton.mpr rfl⟩

/-- C2 (amended): if two object groups of the same device and object type
have overlapping instance sets (and every range string parses), the
reload is rejected with the configuration error before any new worker is
spun up — but the workers of the previous configuration are not left
running: the handler's first and only worker-population action is
stopping all of them, before the new configuration is even validated. -/
theorem c2_on_config (n : Nat) (cfg : Config) (d : DeviceCfg) (hd : d ∈ cfg)
    (l₁ l₂ l₃ : List GroupCfg) (gi gj : GroupCfg)
    (hgs : d.groups = l₁ ++ gi :: l₂ ++ gj :: l₃)
    (ht : gj.objectType = gi.objectType)
    (ii ij : List Int) (x : Int)
    (hi : unpack_range gi.objectInstance = some ii)
    (hj : unpack_range gj.objectInstance = some ij)
    (hxi : x ∈ ii) (hxj : x ∈ ij)
    (hparse : ∀ d' ∈ cfg, ∀ g ∈ d'.groups, (unpack_range g.objectInstance).isSome) :
    onConfig n cfg
      = ([WorkerAction.stopWorkers n],
         .error "Config has errors! See previous log.") := by
  have hflag : ∀ r, processGroups d.groups [] false = .ok r → r.2 = true := by
    rw [hgs]
    exact device_overlap l₁ l₂ l₃ gi gj ht ii ij x hi hj hxi hxj
  have hok : ∀ d' ∈ cfg, ∃ r, processGroups d'.groups [] false = .ok r :=
    fun d' hm => pg_ok d'.groups (hparse d' hm) [] false
  have hdev : processDevicesFrom cfg false = .ok true := pd_flag cfg d hd hflag hok
  unfold onConfig
  rw [hdev]

/-- Witness for c2_on_config at the concrete overlapping configuration. -/
theorem c2_on_config_witness :
    (unpack_range "1-5" = some [1, 2, 3, 4, 5] ∧
     unpack_range "3-7" = some [3, 4, 5, 6, 7] ∧ (3 : Int) ∈ [1, 2, 3, 4, 5]) ∧
    onConfig 2 [⟨"10.0.0.1", [⟨"analogInput", "1-5", 1⟩, ⟨"analogInput", "3-7", 1⟩]⟩]
      = ([WorkerAction.stopWorkers 2],
         .error "Config has errors! See previous log.") :=
  ⟨⟨rfl, rfl, by decide⟩,
   c2_on_config 2
     [⟨"10.0.0.1", [⟨"analogInput", "1-5", 1⟩, ⟨"analogInput", "3-7", 1⟩]⟩]
     ⟨"10.0.0.1", [⟨"analogInput", "1-5", 1⟩, ⟨"analogInput", "3-7", 1⟩]⟩
     (List.mem_singleton.mpr rfl)
     [] [] [] ⟨"analogInput", "1-5", 1⟩ ⟨"analogInput", "3-7", 1⟩
     rfl rfl [1, 2, 3, 4, 5] [3, 4, 5, 6, 7] 3 rfl rfl
     (by decide) (by decide)
     (by intro d' hm g hg
         rcases List.mem_singleton.mp hm with rfl
         simp only [List.mem_cons] at hg
         rcases hg with rfl | hg
         · rfl
         · rcases hg with rfl | hg
           · rfl
           · simp at hg)⟩

/-- Witness for c4_request_object_props: one fully cached object under
`skip_when_cached` yields the unchanged cache and an absent result. -/
theorem c4_request_object_props_witness :
    ([(("analogInput" : String), (1 : Int))].all
      (fullyCached
        [(("a", "analogInput", 1),
          [("objectName", Val.str "n"), ("description", Val.str "d"),
           ("units", Val.str "u")])]
        "a" ((none : Option (List String)).getD ["objectName", "description", "units"]))
      = true) ∧
    requestObjectProperties
      [(("a", "analogInput", 1),
        [("objectName", Val.str "n"), ("description", Val.str "d"),
         ("units", Val.str "u")])]
      "a" [("analogInput", 1)] none true none (some ⟨7, "segmentedBoth"⟩)
      (fun _ => none)
    = ([(("a", "analogInput", 1),
        [("objectName", Val.str "n"), ("description", Val.str "d"),
         ("units", Val.str "u")])], none) :=
  ⟨rfl,
   (c4_request_object_props
     [(("a", "analogInput", 1),
       [("objectName", Val.str "n"), ("description", Val.str "d"),
        ("units", Val.str "u")])]
     "a" [("analogInput", 1)] none none (some ⟨7, "segmentedBoth"⟩)
     (fun _ => none)).1 rfl⟩
